import Mathlib

/-!
# chess-risk-calculator (`script.js`): embedding and verified properties

The numeric core of `script.js` is embedded over an arbitrary linearly ordered
field `α` (exact arithmetic).  `Math.exp` and `Math.pow` are passed in as
functions, so every definition below stays executable; the theorems about
real arithmetic instantiate them with `Real.exp` and `Real.rpow`.

A JavaScript number that is not finite (`NaN`, which is what `0 / 0` gives) is
represented by `none`; finite numbers are `some x`.
-/

set_option linter.unusedVariables false

namespace ChessRisk

variable {α : Type} [LinearOrderedField α]

/-- DOM id of the opponent's player box (`opponentDivId`). -/
def opponentDivId : String := "board-layout-player-top"

/-- DOM id of the user's own player box (`myDivId`). -/
def myDivId : String := "board-layout-player-bottom"

/-- JavaScript `x / y` where the divisor may be zero.  In `script.js` every such
quotient has a zero numerator whenever the divisor is zero, so the JavaScript
value is `NaN`; `none` stands for that non-finite result. -/
def jsDiv (x y : α) : Option α :=
  if y = 0 then none else some (x / y)

/-- One side of a game of the chess.com archive (`game.white` / `game.black`). -/
structure Side where
  result : String
  username : String

/-- A game as found in `gamesData.games`. -/
structure ArchiveGame (α : Type) where
  white : Side
  black : Side
  end_time : α

/-- The record `lastNGames` pushes for each game: `{data, result, weight}`.
`data` is the `Date`, as milliseconds since the epoch. -/
structure Game (α : Type) where
  data : α
  result : Int
  weight : α

/-- `weightGame`, lines 55-59, with `Date.now()` threaded as `now` (milliseconds)
and `Math.exp` as `exp`. -/
def weightGame (exp : α → α) (now date : α) : α :=
  let daysOffset := (now - date) / (1000 * 60 * 60 * 24)
  exp (-0.4 * daysOffset)

/-- JavaScript `xs.slice(-k)` for a count `k`: the last `k` elements, and the
whole array when `k` is `0` (`-0` is `0`). -/
def sliceFromEnd {β : Type} (k : Nat) (xs : List β) : List β :=
  if k = 0 then xs else xs.drop (xs.length - k)

/-- JavaScript `s.toLowerCase()`, character by character; it agrees with the
JavaScript method on the ASCII names chess.com allows. -/
def toLowerCase (s : String) : String :=
  ⟨s.data.map Char.toLower⟩

/-- Body of the `forEach` callback of `lastNGames`, lines 75-89: the record
pushed for one archive game. -/
def gameRecord (exp : α → α) (now : α) (username : String) (game : ArchiveGame α) : Game α :=
  let result : Int :=
    if game.white.result = "win" then
      (if toLowerCase game.white.username = username then 1 else -1)
    else if game.black.result = "win" then
      (if toLowerCase game.black.username = username then 1 else -1)
    else 0
  let date := game.end_time * 1000
  { data := date, result := result, weight := weightGame exp now date }

/-- The `while` loop of `lastNGames`, lines 70-90.  The first argument is the
`archives` array as a stack: its head is the element `archives.pop()` removes,
that is the last archive of the array.  Each archive is given by its fetched
list of games. -/
def lastNGamesLoop (exp : α → α) (now : α) (username : String) (gamesNumber : Nat) :
    List (List (ArchiveGame α)) → List (Game α) → List (Game α)
  | [], lastGames => lastGames
  | latestArchive :: archives, lastGames =>
    if lastGames.length < gamesNumber then
      lastNGamesLoop exp now username gamesNumber archives
        (lastGames ++
          (sliceFromEnd (gamesNumber - lastGames.length) latestArchive).map
            (gameRecord exp now username))
    else lastGames

/-- `lastNGames`, lines 61-93.  `archives` is the array returned by
`archiveList(username)`, each URL replaced by the games it fetches. -/
def lastNGames (exp : α → α) (now : α) (archives : List (List (ArchiveGame α)))
    (username : String) (gamesNumber : Nat) : List (Game α) :=
  if archives.length = 0 then []
  else lastNGamesLoop exp now username gamesNumber archives.reverse []

/-- `calculateDefenseLevel`, lines 114-117. -/
def calculateDefenseLevel (games : List (Game α)) : Option α :=
  let total := games.foldl (fun total game => total + (game.result : α) * game.weight) 0
  jsDiv total (games.length : α)

/-- `calculateThreatLevel`, lines 119-122. -/
def calculateThreatLevel (games : List (Game α)) : Option α :=
  let total := games.foldl (fun total game => total + (game.result : α) * game.weight) 0
  jsDiv total (games.length : α)

/-- The object returned by `calculateRiskIndex`. -/
structure RiskIndex (α : Type) where
  winProbability : α
  potentialPointLoss : α
  potentialPointGain : α
  risk : Option α
  threatIndex : Option α
  defenseIndex : Option α

/-- `calculateRiskIndex`, lines 124-158.  `pow` is `Math.pow`;
`getCurrentCategoryRating` is the page lookup of lines 31-39.  The local
`risk` (the clamped value) is computed as in the source; the returned field
`risk` is `adjustedRisk`, as in the source (line 154). -/
def calculateRiskIndex (pow : α → α → α) (getCurrentCategoryRating : String → α)
    (myElo : α) (myDefenseLevel : Option α) (opponentElo : α)
    (opponentThreatLevel : Option α) (kFactor : α) : RiskIndex α :=
  let winProbability := 1 / (1 + pow 10 ((opponentElo - myElo) / 400))
  let lossProbability := 1 - winProbability
  let opponentCategoryElo := getCurrentCategoryRating opponentDivId
  let myCategoryElo := getCurrentCategoryRating myDivId
  let categoryWinProbability := 1 / (1 + pow 10 ((opponentCategoryElo - myCategoryElo) / 400))
  let categoryLossProbability := 1 - categoryWinProbability
  let potentialPointLoss := kFactor * categoryWinProbability
  let potentialPointGain := kFactor * categoryLossProbability
  let normalizedThreat := opponentThreatLevel.map (fun t => (t + 1) / 2)
  let normalizedDefense := myDefenseLevel.map (fun d => (d + 1) / 2)
  let riskFactor := normalizedThreat.bind (fun t => normalizedDefense.map (fun d => t * (1 - d)))
  let adjustedRisk := riskFactor.bind (fun rf =>
    (jsDiv potentialPointLoss kFactor).map (fun q => lossProbability * (1 + rf) * q))
  let risk := adjustedRisk.map (fun r => min 1 (max 0 r))
  { winProbability := winProbability
    potentialPointLoss := potentialPointLoss
    potentialPointGain := potentialPointGain
    risk := adjustedRisk
    threatIndex := opponentThreatLevel
    defenseIndex := myDefenseLevel }

/-- `gameIndexes`, lines 160-164 (`kFactor` takes its default, 15). -/
def gameIndexes (pow : α → α → α) (getCurrentCategoryRating : String → α)
    (myElo : α) (myGames : List (Game α)) (opponentElo : α)
    (opponentGames : List (Game α)) : RiskIndex α :=
  let opponentThreatLevel := calculateThreatLevel opponentGames
  let myDefenseLevel := calculateDefenseLevel myGames
  calculateRiskIndex pow getCurrentCategoryRating myElo myDefenseLevel opponentElo
    opponentThreatLevel 15

/-- What `chessRiskCalculator` reads from the page and from the remote service:
`getUserName(divId)`, `getCurrentCategoryRating(divId)`, `elo(username)` (`null`
or a rating), the fetched archives of a user, and the clock. -/
structure Page (α : Type) where
  getUserName : String → Option String
  getCurrentCategoryRating : String → α
  elo : String → Option α
  archives : String → List (List (ArchiveGame α))
  now : α

/-- JavaScript `!x` for a value that is `null` or a string. -/
def notString : Option String → Bool
  | none => true
  | some s => s = ""

/-- JavaScript `!x` for a value that is `null` or a finite number. -/
def notNumber : Option α → Bool
  | none => true
  | some x => x = 0

/-- The calculation part of `chessRiskCalculator`, lines 205-230: the value
handed to `showRiskBox`, or `none` when the script returns without showing
the box. -/
def chessRiskCalculator (exp : α → α) (pow : α → α → α) (page : Page α) :
    Option (RiskIndex α) :=
  let myUser := page.getUserName myDivId
  let opponentUser := page.getUserName opponentDivId
  if notString myUser || notString opponentUser then none
  else
    match myUser, opponentUser with
    | some myUser, some opponentUser =>
      let myElo := page.elo myUser
      let myGames := lastNGames exp page.now (page.archives myUser) myUser 10
      let opponentElo := page.elo opponentUser
      let opponentGames := lastNGames exp page.now (page.archives opponentUser) opponentUser 10
      if notNumber myElo || notNumber opponentElo || opponentGames.length = 0 then none
      else
        match myElo, opponentElo with
        | some myElo, some opponentElo =>
          some (gameIndexes pow page.getCurrentCategoryRating myElo myGames opponentElo
            opponentGames)
        | _, _ => none
    | _, _ => none

/-- The page lookup that reports `my` for the user's own box and `opponent`
for every other box. -/
def pageRatings (my opponent : α) : String → α :=
  fun divId => if divId = myDivId then my else opponent

/-- The sum `Σ result_i * weight_i` of the specification. -/
def weightedTotal (games : List (Game α)) : α :=
  (games.map (fun game => (game.result : α) * game.weight)).sum

/-- The largest weight among `games` (`maxWeight` of the specification); `0`
for the empty list. -/
def maxWeight : List (Game α) → α
  | [] => 0
  | game :: games => max game.weight (maxWeight games)

/-- A page on which both players are found and rated (overall 1500, category
1200), the user's own archive list is empty, and the opponent has one archive
with one game, which the opponent won at the evaluation instant. -/
def noOwnGamesPage : Page α where
  getUserName := fun divId => if divId = myDivId then some "me" else some "you"
  getCurrentCategoryRating := fun _ => 1200
  elo := fun _ => some 1500
  archives := fun user =>
    if user = "me" then [] else [[⟨⟨"resigned", "other"⟩, ⟨"win", "you"⟩, 0⟩]]
  now := 0

/-- A page on which both players are found and rated (overall 1500, category
1200) and each has one archive with one game; the opponent's game, which the
opponent won, ends 86400 seconds (one day) after the evaluation instant. -/
def futureGamePage : Page α where
  getUserName := fun divId => if divId = myDivId then some "me" else some "you"
  getCurrentCategoryRating := fun _ => 1200
  elo := fun _ => some 1500
  archives := fun user =>
    if user = "me" then [[⟨⟨"win", "me"⟩, ⟨"resigned", "other"⟩, 0⟩]]
    else [[⟨⟨"resigned", "other"⟩, ⟨"win", "you"⟩, 86400⟩]]
  now := 0

/-! ## Auxiliary facts -/

theorem foldl_total (games : List (Game α)) (init : α) :
    games.foldl (fun total game => total + (game.result : α) * game.weight) init
      = init + weightedTotal games := by
  induction games generalizing init with
  | nil => simp [weightedTotal]
  | cons game games ih =>
    rw [List.foldl_cons, ih]
    simp [weightedTotal, add_assoc]

theorem calculateDefenseLevel_eq (games : List (Game α)) :
    calculateDefenseLevel games
      = if games.length = 0 then none else some (weightedTotal games / (games.length : α)) := by
  unfold calculateDefenseLevel jsDiv
  simp only [foldl_total, zero_add, Nat.cast_eq_zero]

theorem calculateThreatLevel_eq (games : List (Game α)) :
    calculateThreatLevel games
      = if games.length = 0 then none else some (weightedTotal games / (games.length : α)) := by
  unfold calculateThreatLevel jsDiv
  simp only [foldl_total, zero_add, Nat.cast_eq_zero]

theorem maxWeight_nonneg (games : List (Game α)) : 0 ≤ maxWeight games := by
  induction games with
  | nil => exact le_refl _
  | cons game games ih => exact le_max_of_le_right ih

theorem le_maxWeight (games : List (Game α)) :
    ∀ game ∈ games, game.weight ≤ maxWeight games := by
  induction games with
  | nil => intro game h; cases h
  | cons g games ih =>
    intro game h
    rcases List.mem_cons.mp h with rfl | h
    · exact le_max_left _ _
    · exact le_max_of_le_right (ih game h)

theorem maxWeight_attained (games : List (Game α)) (hne : games ≠ [])
    (hw : ∀ game ∈ games, 0 < game.weight) :
    ∃ game ∈ games, game.weight = maxWeight games := by
  induction games with
  | nil => exact absurd rfl hne
  | cons g games ih =>
    by_cases hg : maxWeight games ≤ g.weight
    · exact ⟨g, List.mem_cons_self _ _, (max_eq_left hg).symm⟩
    · have hlt : g.weight < maxWeight games := lt_of_not_le hg
      have hne2 : games ≠ [] := by
        rintro rfl
        exact absurd (hw g (List.mem_cons_self _ _)) (not_lt.mpr (le_of_lt hlt))
      obtain ⟨game, hmem, heq⟩ := ih hne2 (fun x hx => hw x (List.mem_cons_of_mem _ hx))
      exact ⟨game, List.mem_cons_of_mem _ hmem, by
        rw [heq]; exact (max_eq_right (le_of_lt hlt)).symm⟩

theorem term_bound (game : Game α) (M : α)
    (hres : game.result = -1 ∨ game.result = 0 ∨ game.result = 1)
    (h0 : 0 < game.weight) (hM : game.weight ≤ M) :
    -M ≤ (game.result : α) * game.weight ∧ (game.result : α) * game.weight ≤ M := by
  rcases hres with h | h | h <;> rw [h] <;> constructor <;> push_cast <;> linarith

theorem weightedTotal_bound (M : α) (games : List (Game α))
    (hres : ∀ game ∈ games, game.result = -1 ∨ game.result = 0 ∨ game.result = 1)
    (hw : ∀ game ∈ games, 0 < game.weight ∧ game.weight ≤ M) :
    -((games.length : α) * M) ≤ weightedTotal games ∧
      weightedTotal games ≤ (games.length : α) * M := by
  induction games with
  | nil => simp [weightedTotal]
  | cons g games ih =>
    have hg := term_bound g M (hres g (List.mem_cons_self _ _))
      (hw g (List.mem_cons_self _ _)).1 (hw g (List.mem_cons_self _ _)).2
    have ih2 := ih (fun x hx => hres x (List.mem_cons_of_mem _ hx))
      (fun x hx => hw x (List.mem_cons_of_mem _ hx))
    have hsum : weightedTotal (g :: games) = (g.result : α) * g.weight + weightedTotal games := by
      simp [weightedTotal]
    rw [hsum, List.length_cons]
    push_cast
    constructor <;> linarith [hg.1, hg.2, ih2.1, ih2.2]


theorem divIds_ne : opponentDivId ≠ myDivId := by decide

theorem weightGame_real (now date : ℝ) :
    weightGame Real.exp now date = Real.exp (-0.4 * ((now - date) / 86400000)) := by
  unfold weightGame
  norm_num

theorem logistic_pos (x : ℝ) : 0 < 1 / (1 + Real.rpow 10 x) := by
  have h : 0 < Real.rpow 10 x := Real.rpow_pos_of_pos (by norm_num) x
  positivity

theorem logistic_lt_one (x : ℝ) : 1 / (1 + Real.rpow 10 x) < 1 := by
  have h : 0 < Real.rpow 10 x := Real.rpow_pos_of_pos (by norm_num) x
  rw [div_lt_one (by linarith)]
  linarith

theorem logistic_symm (x y : ℝ) (h : y = -x) :
    1 / (1 + Real.rpow 10 x) + 1 / (1 + Real.rpow 10 y) = 1 := by
  subst h
  have hx : 0 < Real.rpow 10 x := Real.rpow_pos_of_pos (by norm_num) x
  have hneg : Real.rpow 10 (-x) = (Real.rpow 10 x)⁻¹ := Real.rpow_neg (by norm_num) x
  rw [hneg]
  field_simp
  ring

theorem sliceFromEnd_length {β : Type} (k : Nat) (xs : List β) (hk : 0 < k) :
    (sliceFromEnd k xs).length = min k xs.length := by
  unfold sliceFromEnd
  rw [if_neg (Nat.pos_iff_ne_zero.mp hk), List.length_drop]
  omega

theorem sliceFromEnd_eq_drop {β : Type} (k : Nat) (xs : List β) (hk : 0 < k) :
    sliceFromEnd k xs = xs.drop (xs.length - k) := by
  unfold sliceFromEnd
  rw [if_neg (Nat.pos_iff_ne_zero.mp hk)]

theorem gameRecord_result (exp : α → α) (now : α) (username : String)
    (game : ArchiveGame α) :
    (gameRecord exp now username game).result = -1 ∨
    (gameRecord exp now username game).result = 0 ∨
    (gameRecord exp now username game).result = 1 := by
  simp only [gameRecord]
  split_ifs <;> simp

theorem lastNGamesLoop_length (exp : α → α) (now : α) (username : String) (gamesNumber : Nat)
    (stack : List (List (ArchiveGame α))) :
    ∀ lastGames : List (Game α), lastGames.length ≤ gamesNumber →
      (lastNGamesLoop exp now username gamesNumber stack lastGames).length
        = min gamesNumber (lastGames.length + (stack.map List.length).sum) := by
  induction stack with
  | nil =>
    intro lastGames h
    simp [lastNGamesLoop, h]
  | cons latestArchive stack ih =>
    intro lastGames h
    by_cases hlt : lastGames.length < gamesNumber
    · rw [lastNGamesLoop, if_pos hlt, ih]
      · simp only [List.length_append, List.length_map, List.map_cons, List.sum_cons,
          sliceFromEnd_length _ _ (Nat.sub_pos_of_lt hlt)]
        omega
      · simp only [List.length_append, List.length_map,
          sliceFromEnd_length _ _ (Nat.sub_pos_of_lt hlt)]
        omega
    · rw [lastNGamesLoop, if_neg hlt]
      omega

theorem lastNGamesLoop_result (exp : α → α) (now : α) (username : String) (gamesNumber : Nat)
    (stack : List (List (ArchiveGame α))) :
    ∀ lastGames : List (Game α),
      (∀ game ∈ lastGames, game.result = -1 ∨ game.result = 0 ∨ game.result = 1) →
      ∀ game ∈ lastNGamesLoop exp now username gamesNumber stack lastGames,
        game.result = -1 ∨ game.result = 0 ∨ game.result = 1 := by
  induction stack with
  | nil =>
    intro lastGames h game hg
    exact h game (by simpa [lastNGamesLoop] using hg)
  | cons latestArchive stack ih =>
    intro lastGames h game hg
    by_cases hlt : lastGames.length < gamesNumber
    · rw [lastNGamesLoop, if_pos hlt] at hg
      refine ih _ ?_ game hg
      intro x hx
      rcases List.mem_append.mp hx with hx | hx
      · exact h x hx
      · obtain ⟨raw, -, rfl⟩ := List.mem_map.mp hx
        exact gameRecord_result exp now username raw
    · rw [lastNGamesLoop, if_neg hlt] at hg
      exact h game hg

theorem lastNGamesLoop_append (exp : α → α) (now : α) (username : String)
    (stack : List (List (ArchiveGame α))) :
    ∀ (gamesNumber : Nat) (lastGames : List (Game α)), lastGames.length ≤ gamesNumber →
      lastNGamesLoop exp now username gamesNumber stack lastGames
        = lastGames ++
          lastNGamesLoop exp now username (gamesNumber - lastGames.length) stack [] := by
  induction stack with
  | nil =>
    intro gamesNumber lastGames _
    simp [lastNGamesLoop]
  | cons latestArchive stack ih =>
    intro gamesNumber lastGames h
    by_cases hlt : lastGames.length < gamesNumber
    · have hpos : 0 < gamesNumber - lastGames.length := Nat.sub_pos_of_lt hlt
      have hlen : (sliceFromEnd (gamesNumber - lastGames.length) latestArchive).length
          ≤ gamesNumber - lastGames.length := by
        rw [sliceFromEnd_length _ _ hpos]
        exact min_le_left _ _
      rw [lastNGamesLoop, if_pos hlt, lastNGamesLoop,
        if_pos (by simpa using hpos)]
      rw [ih gamesNumber _ (by
        simp only [List.length_append, List.length_map]
        omega)]
      rw [ih (gamesNumber - lastGames.length) _ (by
        simp only [List.nil_append, List.length_map, List.length_nil, Nat.sub_zero]
        exact hlen)]
      simp only [List.nil_append, List.length_append, List.length_map, List.length_nil,
        Nat.sub_zero, List.append_assoc, Nat.sub_sub]
    · have heq : gamesNumber - lastGames.length = 0 := by omega
      rw [lastNGamesLoop, if_neg hlt, heq, lastNGamesLoop, if_neg (by simp)]
      simp

theorem lastNGames_eq_loop (exp : α → α) (now : α) (archives : List (List (ArchiveGame α)))
    (username : String) (gamesNumber : Nat) :
    lastNGames exp now archives username gamesNumber
      = lastNGamesLoop exp now username gamesNumber archives.reverse [] := by
  unfold lastNGames
  cases archives with
  | nil => simp [lastNGamesLoop]
  | cons a archives => simp

/-! ## `weightGame` -/

/-- C5: for a game whose age `Δdays = (now - date) / 86400000` is non-negative,
`weightGame` returns `exp (-0.4 * Δdays)`; the weight lies in `(0, 1]`, is `1` at
age `0`, and every strictly older game has a strictly smaller weight. -/
theorem weightGame_decay (now date Δdays : ℝ)
    (hage : (now - date) / (1000 * 60 * 60 * 24) = Δdays) (h0 : 0 ≤ Δdays) :
    weightGame Real.exp now date = Real.exp (-0.4 * Δdays) ∧
    0 < weightGame Real.exp now date ∧
    weightGame Real.exp now date ≤ 1 ∧
    (Δdays = 0 → weightGame Real.exp now date = 1) ∧
    (∀ date2 Δ2 : ℝ, (now - date2) / (1000 * 60 * 60 * 24) = Δ2 → Δdays < Δ2 →
      weightGame Real.exp now date2 < weightGame Real.exp now date) := by
  have hw : ∀ d Δ : ℝ, (now - d) / (1000 * 60 * 60 * 24) = Δ →
      weightGame Real.exp now d = Real.exp (-0.4 * Δ) := by
    intro d Δ h
    show Real.exp (-0.4 * ((now - d) / (1000 * 60 * 60 * 24))) = _
    rw [h]
  rw [hw date Δdays hage]
  refine ⟨rfl, Real.exp_pos _, ?_, ?_, ?_⟩
  · rw [Real.exp_le_one_iff]
    nlinarith
  · intro hz
    rw [hz]
    simp
  · intro date2 Δ2 h2 hlt
    rw [hw date2 Δ2 h2, Real.exp_lt_exp]
    nlinarith

/-- Witness for C5: a game that ended exactly one day before `now`. -/
theorem weightGame_decay_witness :
    weightGame Real.exp 86400000 0 = Real.exp (-0.4 * 1) ∧
    0 < weightGame Real.exp 86400000 0 ∧
    weightGame Real.exp 86400000 0 ≤ 1 :=
  have h := weightGame_decay 86400000 0 1 (by norm_num) (by norm_num)
  ⟨h.1, h.2.1, h.2.2.1⟩

/-- The age is not clamped: a game dated after `now` gets a weight above `1`. -/
theorem weightGame_gt_one_of_future (now date : ℝ) (h : now < date) :
    1 < weightGame Real.exp now date := by
  rw [weightGame_real, Real.one_lt_exp_iff]
  have : 0 < (date - now) / 86400000 := div_pos (by linarith) (by norm_num)
  have h2 : (now - date) / 86400000 = -((date - now) / 86400000) := by ring
  rw [h2]
  linarith

/-- C3 at a failing input: a game that ends one day after `now` (`now = 0`,
`date = 86400000` ms).  `weightGame` returns `exp 0.4`, which is above `1`
and not the clamped weight `1`.  On `futureGamePage`, where this is the
opponent's only game, the assessment that is shown has threat index
`exp 0.4`, outside the range `-1..1` that line 142 and the overlay heading
announce. -/
theorem futureGame_weight_exceeds_one :
    weightGame Real.exp 0 86400000 = Real.exp 0.4 ∧
    1 < weightGame Real.exp 0 86400000 ∧
    weightGame Real.exp 0 86400000 ≠ 1 ∧
    (∃ riskIndex, chessRiskCalculator Real.exp Real.rpow futureGamePage = some riskIndex ∧
      riskIndex.threatIndex = some (Real.exp 0.4)) ∧
    (1 : ℝ) < Real.exp 0.4 := by
  have hw : weightGame Real.exp 0 86400000 = Real.exp 0.4 := by
    rw [weightGame_real]
    congr 1
    norm_num
  have hgt : 1 < weightGame Real.exp 0 86400000 :=
    weightGame_gt_one_of_future 0 86400000 (by norm_num)
  have hw2 : weightGame Real.exp 0 (86400 * 1000) = Real.exp 0.4 := by
    rw [← hw]
    norm_num
  exact ⟨hw, hgt, ne_of_gt hgt, ⟨_, by
      simp [chessRiskCalculator, futureGamePage, notString, notNumber, lastNGames,
        lastNGamesLoop, sliceFromEnd, divIds_ne]
      rfl, by
      simp [gameIndexes, calculateRiskIndex, calculateThreatLevel, jsDiv, gameRecord,
        toLowerCase, hw2]⟩, hw ▸ hgt⟩

/-! ## `calculateRiskIndex` -/

/-- C6: the win probability computed by `calculateRiskIndex` is the logistic
`P(self, opp) = 1 / (1 + 10 ^ ((opp - self) / 400))`; it satisfies
`P(a, b) + P(b, a) = 1` and `P(a, a) = 1 / 2`, for the overall ratings
(`winProbability`) and for the category ratings (`potentialPointLoss` at
`kFactor = 1`, which is the category win probability). -/
theorem winProbability_symmetric (a b x y x' y' : ℝ) (g g' : String → ℝ)
    (d d' t t' : Option ℝ) (k k' : ℝ) :
    (calculateRiskIndex Real.rpow g a d b t k).winProbability
      = 1 / (1 + (10 : ℝ) ^ ((b - a) / 400)) ∧
    (calculateRiskIndex Real.rpow g a d b t k).winProbability
      + (calculateRiskIndex Real.rpow g' b d' a t' k').winProbability = 1 ∧
    (calculateRiskIndex Real.rpow g a d a t k).winProbability = 1 / 2 ∧
    (calculateRiskIndex Real.rpow (pageRatings a b) x d y t 1).potentialPointLoss
      = 1 / (1 + (10 : ℝ) ^ ((b - a) / 400)) ∧
    (calculateRiskIndex Real.rpow (pageRatings a b) x d y t 1).potentialPointLoss
      + (calculateRiskIndex Real.rpow (pageRatings b a) x' d' y' t' 1).potentialPointLoss = 1 ∧
    (calculateRiskIndex Real.rpow (pageRatings a a) x d y t 1).potentialPointLoss = 1 / 2 := by
  have hne : ¬ (opponentDivId = myDivId) := divIds_ne
  refine ⟨rfl, ?_, ?_, ?_, ?_, ?_⟩
  · exact logistic_symm _ _ (by ring)
  · simp [calculateRiskIndex]
    norm_num
  · simp [calculateRiskIndex, pageRatings, hne]
  · simp only [calculateRiskIndex, pageRatings, hne, if_true, if_false, one_mul]
    exact logistic_symm _ _ (by ring)
  · simp [calculateRiskIndex, pageRatings]
    norm_num

/-- C7: the `winProbability` field returned by `calculateRiskIndex` is strictly
between `0` and `1`, and does not depend on the indices, on the category
ratings or on `kFactor`. -/
theorem winProbability_open_unit (myElo opponentElo : ℝ) (g g' : String → ℝ)
    (d d' t t' : Option ℝ) (k k' : ℝ) :
    0 < (calculateRiskIndex Real.rpow g myElo d opponentElo t k).winProbability ∧
    (calculateRiskIndex Real.rpow g myElo d opponentElo t k).winProbability < 1 ∧
    (calculateRiskIndex Real.rpow g myElo d opponentElo t k).winProbability
      = (calculateRiskIndex Real.rpow g' myElo d' opponentElo t' k').winProbability :=
  ⟨logistic_pos _, logistic_lt_one _, rfl⟩

/-- C9: `potentialPointLoss = kFactor * P(selfCategory, opponentCategory)` and
`potentialPointGain = kFactor * (1 - P(selfCategory, opponentCategory))`, their
sum is `kFactor`, and neither depends on the overall ratings or the indices. -/
theorem potentialPoints_category (g : String → ℝ) (myElo opponentElo myElo' opponentElo' : ℝ)
    (d d' t t' : Option ℝ) (kFactor : ℝ) :
    (calculateRiskIndex Real.rpow g myElo d opponentElo t kFactor).potentialPointLoss
      = kFactor * (1 / (1 + (10 : ℝ) ^ ((g opponentDivId - g myDivId) / 400))) ∧
    (calculateRiskIndex Real.rpow g myElo d opponentElo t kFactor).potentialPointGain
      = kFactor * (1 - 1 / (1 + (10 : ℝ) ^ ((g opponentDivId - g myDivId) / 400))) ∧
    (calculateRiskIndex Real.rpow g myElo d opponentElo t kFactor).potentialPointGain
      + (calculateRiskIndex Real.rpow g myElo d opponentElo t kFactor).potentialPointLoss
      = kFactor ∧
    (calculateRiskIndex Real.rpow g myElo d opponentElo t kFactor).potentialPointLoss
      = (calculateRiskIndex Real.rpow g myElo' d' opponentElo' t' kFactor).potentialPointLoss ∧
    (calculateRiskIndex Real.rpow g myElo d opponentElo t kFactor).potentialPointGain
      = (calculateRiskIndex Real.rpow g myElo' d' opponentElo' t' kFactor).potentialPointGain := by
  refine ⟨rfl, rfl, ?_, rfl, rfl⟩
  simp only [calculateRiskIndex]
  ring

/-- Scenario A evaluated: overall ratings 1500, category ratings 1200, both
indices 0, `kFactor = 15`. -/
theorem scenarioA_fields :
    (calculateRiskIndex Real.rpow (pageRatings 1200 1200) 1500 (some 0) 1500 (some 0)
      15).winProbability = 1 / 2 ∧
    (calculateRiskIndex Real.rpow (pageRatings 1200 1200) 1500 (some 0) 1500 (some 0)
      15).potentialPointGain = 15 / 2 ∧
    (calculateRiskIndex Real.rpow (pageRatings 1200 1200) 1500 (some 0) 1500 (some 0)
      15).potentialPointLoss = 15 / 2 ∧
    (calculateRiskIndex Real.rpow (pageRatings 1200 1200) 1500 (some 0) 1500 (some 0)
      15).risk = some (5 / 16) := by
  refine ⟨?_, ?_, ?_, ?_⟩ <;>
    simp [calculateRiskIndex, pageRatings, jsDiv] <;> norm_num

/-- C4, as stated, fails: in Scenario A the returned `risk` is not `0.25`. -/
theorem scenarioA_risk_not_quarter :
    ¬ ((calculateRiskIndex Real.rpow (pageRatings 1200 1200) 1500 (some 0) 1500 (some 0)
        15).winProbability = 0.5 ∧
      (calculateRiskIndex Real.rpow (pageRatings 1200 1200) 1500 (some 0) 1500 (some 0)
        15).potentialPointGain = 7.5 ∧
      (calculateRiskIndex Real.rpow (pageRatings 1200 1200) 1500 (some 0) 1500 (some 0)
        15).potentialPointLoss = 7.5 ∧
      (calculateRiskIndex Real.rpow (pageRatings 1200 1200) 1500 (some 0) 1500 (some 0)
        15).risk = some 0.25) := by
  rintro ⟨-, -, -, h⟩
  rw [scenarioA_fields.2.2.2] at h
  norm_num at h

/-- C4, amended: in Scenario A `calculateRiskIndex` returns
`winProbability = 0.5`, `potentialPointGain = potentialPointLoss = 7.5` and
`risk = 0.3125` (`0.5 * (1 + 0.25) * 0.5`, the risk factor at neutral indices
being `0.5 * (1 - 0.5) = 0.25`). -/
theorem scenarioA :
    (calculateRiskIndex Real.rpow (pageRatings 1200 1200) 1500 (some 0) 1500 (some 0)
      15).winProbability = 0.5 ∧
    (calculateRiskIndex Real.rpow (pageRatings 1200 1200) 1500 (some 0) 1500 (some 0)
      15).potentialPointGain = 7.5 ∧
    (calculateRiskIndex Real.rpow (pageRatings 1200 1200) 1500 (some 0) 1500 (some 0)
      15).potentialPointLoss = 7.5 ∧
    (calculateRiskIndex Real.rpow (pageRatings 1200 1200) 1500 (some 0) 1500 (some 0)
      15).risk = some 0.3125 := by
  obtain ⟨h1, h2, h3, h4⟩ := scenarioA_fields
  rw [h1, h2, h3, h4]
  norm_num

/-- C1 at a failing input: self overall 1000 against 1400, self category 1400
against 1000, defense index `-1`, threat index `1`, `kFactor = 15`.  The
returned `risk` is `200 / 121`, which exceeds `1`. -/
theorem risk_exceeds_one :
    (calculateRiskIndex Real.rpow (pageRatings 1400 1000) 1000 (some (-1)) 1400 (some 1)
      15).risk = some (200 / 121) ∧ (1 : ℝ) < 200 / 121 := by
  have h1 : ((1400 : ℝ) - 1000) / 400 = 1 := by norm_num
  have h2 : ((1000 : ℝ) - 1400) / 400 = -1 := by norm_num
  have hne : ¬ (opponentDivId = myDivId) := divIds_ne
  refine ⟨?_, by norm_num⟩
  simp only [calculateRiskIndex, pageRatings, hne, if_true, if_false, jsDiv, h1, h2,
    Real.rpow_eq_pow, Real.rpow_one, Real.rpow_neg_one, Option.map_some', Option.some_bind,
    Option.some.injEq]
  norm_num

/-! ## `calculateDefenseLevel` and `calculateThreatLevel` -/

/-- C8: for a non-empty list of games with results in `{-1, 0, 1}` and weights
in `(0, 1]`, both calculators return `Σ result_i * weight_i / count`, a value
in `[-maxWeight, maxWeight]`, where `maxWeight ≤ 1` is the largest weight of
the list; hence the value lies in `[-1, 1]`. -/
theorem performanceIndex_bounds (games : List (Game α)) (hne : games ≠ [])
    (hres : ∀ game ∈ games, game.result = -1 ∨ game.result = 0 ∨ game.result = 1)
    (hw : ∀ game ∈ games, 0 < game.weight ∧ game.weight ≤ 1) :
    calculateDefenseLevel games = some (weightedTotal games / (games.length : α)) ∧
    calculateThreatLevel games = some (weightedTotal games / (games.length : α)) ∧
    -(maxWeight games) ≤ weightedTotal games / (games.length : α) ∧
    weightedTotal games / (games.length : α) ≤ maxWeight games ∧
    (∃ game ∈ games, game.weight = maxWeight games) ∧
    maxWeight games ≤ 1 ∧
    -1 ≤ weightedTotal games / (games.length : α) ∧
    weightedTotal games / (games.length : α) ≤ 1 := by
  have hlen : (0 : α) < (games.length : α) :=
    Nat.cast_pos.mpr (List.length_pos.mpr hne)
  have hb := weightedTotal_bound (maxWeight games) games hres
    (fun g hg => ⟨(hw g hg).1, le_maxWeight games g hg⟩)
  obtain ⟨gmax, hmem, hmax⟩ := maxWeight_attained games hne (fun g hg => (hw g hg).1)
  have hM1 : maxWeight games ≤ 1 := hmax ▸ (hw gmax hmem).2
  have hlo : -(maxWeight games) ≤ weightedTotal games / (games.length : α) := by
    rw [le_div_iff₀ hlen]
    linarith [hb.1]
  have hhi : weightedTotal games / (games.length : α) ≤ maxWeight games := by
    rw [div_le_iff₀ hlen]
    linarith [hb.2]
  refine ⟨?_, ?_, hlo, hhi, ⟨gmax, hmem, hmax⟩, hM1, by linarith, by linarith⟩
  · rw [calculateDefenseLevel_eq, if_neg (List.length_pos.mpr hne).ne']
  · rw [calculateThreatLevel_eq, if_neg (List.length_pos.mpr hne).ne']

/-- Witness for C8: a win at full weight and a loss at weight `1 / 2`. -/
theorem performanceIndex_bounds_witness :
    calculateDefenseLevel ([⟨0, 1, 1⟩, ⟨0, -1, 1 / 2⟩] : List (Game ℚ))
      = some (weightedTotal ([⟨0, 1, 1⟩, ⟨0, -1, 1 / 2⟩] : List (Game ℚ)) / 2) ∧
    -1 ≤ weightedTotal ([⟨0, 1, 1⟩, ⟨0, -1, 1 / 2⟩] : List (Game ℚ)) / 2 ∧
    weightedTotal ([⟨0, 1, 1⟩, ⟨0, -1, 1 / 2⟩] : List (Game ℚ)) / 2 ≤ 1 :=
  have h := performanceIndex_bounds ([⟨0, 1, 1⟩, ⟨0, -1, 1 / 2⟩] : List (Game ℚ))
    (by simp) (by simp) (by norm_num)
  ⟨by simpa using h.1, by simpa using h.2.2.2.2.2.2.1, by simpa using h.2.2.2.2.2.2.2⟩

/-- The guard of `chessRiskCalculator` (line 224) covers the opponent's side:
every assessment that is shown has a finite threat index. -/
theorem threatIndex_guarded (exp : α → α) (pow : α → α → α) (page : Page α) :
    ∀ riskIndex, chessRiskCalculator exp pow page = some riskIndex →
      ∃ threat, riskIndex.threatIndex = some threat := by
  intro riskIndex h
  cases hmy : page.getUserName myDivId with
  | none => simp [chessRiskCalculator, hmy, notString] at h
  | some myUser =>
    cases hop : page.getUserName opponentDivId with
    | none => simp [chessRiskCalculator, hmy, hop, notString] at h
    | some opponentUser =>
      cases hme : page.elo myUser with
      | none => simp [chessRiskCalculator, hmy, hop, hme, notNumber] at h
      | some myElo =>
        cases hoe : page.elo opponentUser with
        | none => simp [chessRiskCalculator, hmy, hop, hme, hoe, notNumber] at h
        | some opponentElo =>
          simp only [chessRiskCalculator, hmy, hop, hme, hoe] at h
          split_ifs at h with h1 h2
          simp only [Bool.or_eq_true, decide_eq_true_eq, not_or] at h2
          simp only [Option.some.injEq] at h
          subst h
          simp only [gameIndexes, calculateRiskIndex, calculateThreatLevel_eq, if_neg h2.2]
          exact ⟨_, rfl⟩

/-- C2 at a failing input: the empty game sequence.  Both calculators return
the non-finite `0 / 0`, not the neutral value `0`.  On `noOwnGamesPage`, where
the user's own history is empty and the opponent's is not, the guard of line
224 lets the assessment through: it is shown with a defense index and a risk
that are not finite numbers, while its threat index is `1`. -/
theorem emptyHistory_not_neutral :
    calculateDefenseLevel ([] : List (Game ℝ)) = none ∧
    calculateThreatLevel ([] : List (Game ℝ)) = none ∧
    calculateDefenseLevel ([] : List (Game ℝ)) ≠ some 0 ∧
    calculateThreatLevel ([] : List (Game ℝ)) ≠ some 0 ∧
    (∃ riskIndex, chessRiskCalculator Real.exp Real.rpow noOwnGamesPage = some riskIndex ∧
      riskIndex.defenseIndex = none ∧ riskIndex.risk = none ∧
      riskIndex.threatIndex = some 1) := by
  have hd : calculateDefenseLevel ([] : List (Game ℝ)) = none := by
    simp [calculateDefenseLevel, jsDiv]
  have ht : calculateThreatLevel ([] : List (Game ℝ)) = none := by
    simp [calculateThreatLevel, jsDiv]
  exact ⟨hd, ht, by simp [hd], by simp [ht], ⟨_, by
      simp [chessRiskCalculator, noOwnGamesPage, notString, notNumber, lastNGames,
        lastNGamesLoop, sliceFromEnd, divIds_ne]
      rfl, by
      simp [gameIndexes, calculateRiskIndex, calculateDefenseLevel, jsDiv], by
      simp [gameIndexes, calculateRiskIndex, calculateDefenseLevel, jsDiv], by
      simp [gameIndexes, calculateRiskIndex, calculateThreatLevel, jsDiv, gameRecord,
        toLowerCase, weightGame]⟩⟩

/-! ## `lastNGames` -/

/-- C10: `lastNGames` is total; it returns exactly
`min gamesNumber (total number of games in the archives)` records, hence at
most `gamesNumber`; every record has its result in `{-1, 0, 1}`; with no
archive the result is empty, and otherwise the result starts with the records
of the last `gamesNumber` games of the last archive, followed by what the
remaining archives give for the games still missing. -/
theorem lastNGames_spec (exp : α → α) (now : α) (archives : List (List (ArchiveGame α)))
    (latestArchive : List (ArchiveGame α)) (username : String) (gamesNumber : Nat) :
    (lastNGames exp now archives username gamesNumber).length
      = min gamesNumber (archives.map List.length).sum ∧
    (lastNGames exp now archives username gamesNumber).length ≤ gamesNumber ∧
    (∀ game ∈ lastNGames exp now archives username gamesNumber,
      game.result = -1 ∨ game.result = 0 ∨ game.result = 1) ∧
    lastNGames exp now [] username gamesNumber = [] ∧
    lastNGames exp now (archives ++ [latestArchive]) username gamesNumber
      = (latestArchive.drop (latestArchive.length - gamesNumber)).map
          (gameRecord exp now username)
        ++ lastNGames exp now archives username
          (gamesNumber - min gamesNumber latestArchive.length) := by
  have hlen : (lastNGames exp now archives username gamesNumber).length
      = min gamesNumber (archives.map List.length).sum := by
    rw [lastNGames_eq_loop, lastNGamesLoop_length _ _ _ _ _ [] (Nat.zero_le _)]
    simp [List.sum_reverse]
  refine ⟨hlen, ?_, ?_, rfl, ?_⟩
  · rw [hlen]
    exact min_le_left _ _
  · rw [lastNGames_eq_loop]
    exact lastNGamesLoop_result _ _ _ _ _ [] (fun _ h => by cases h)
  · rw [lastNGames_eq_loop, lastNGames_eq_loop, List.reverse_append, List.reverse_singleton,
      List.singleton_append]
    by_cases hpos : 0 < gamesNumber
    · rw [lastNGamesLoop, if_pos (by simpa using hpos),
        lastNGamesLoop_append _ _ _ _ gamesNumber _ (by
          simp only [List.nil_append, List.length_map, List.length_nil, Nat.sub_zero,
            sliceFromEnd_length _ _ hpos]
          exact min_le_left _ _)]
      have hdrop : (latestArchive.drop (latestArchive.length - gamesNumber)).length
          = min gamesNumber latestArchive.length := by
        rw [List.length_drop]
        omega
      simp only [List.nil_append, List.length_map, List.length_nil, Nat.sub_zero,
        sliceFromEnd_eq_drop _ _ hpos, hdrop]
    · have hz : gamesNumber = 0 := by omega
      subst hz
      rw [lastNGamesLoop, if_neg (by simp)]
      have h0 : ∀ stack : List (List (ArchiveGame α)),
          lastNGamesLoop exp now username 0 stack [] = [] := by
        intro stack
        cases stack <;> simp [lastNGamesLoop]
      simp [h0]

/-- An evaluation of `lastNGames`: two archives, ending at seconds `1, 2` and
`3, 4, 5`; four games are asked for.  The last archive is read first (all
three games), then the last game of the first archive. -/
theorem lastNGames_two_archives :
    (lastNGames (fun _ => (1 : ℚ)) 0
        [[⟨⟨"win", "me"⟩, ⟨"resigned", "you"⟩, 1⟩, ⟨⟨"win", "me"⟩, ⟨"resigned", "you"⟩, 2⟩],
         [⟨⟨"timeout", "me"⟩, ⟨"win", "you"⟩, 3⟩, ⟨⟨"agreed", "me"⟩, ⟨"agreed", "you"⟩, 4⟩,
          ⟨⟨"win", "Me"⟩, ⟨"checkmated", "you"⟩, 5⟩]]
        "me" 4).map (fun game => (game.data, game.result))
      = [(3000, -1), (4000, 0), (5000, 1), (2000, 1)] := by
  simp [lastNGames, lastNGamesLoop, sliceFromEnd, gameRecord, toLowerCase]
  norm_num

end ChessRisk
